import Mathlib

/-!
Verification development for the playwright-operator playground repository.

The repository consists of two Go services:
* an API service (src/operator/api/main.go) exposing /healthz, /jobs,
  /jobs/details and /pod/logs over a cluster-internal Kubernetes client;
* a dashboard service (src/unnamed/part_001) rendering HTML views by calling
  the API service and serving test artifacts below /playwright-results.

Every definition below is a shallow embedding of a function of those two
files.  Calls into external libraries (the Kubernetes client, http.Get,
json.Unmarshal, template rendering, time formatting) are modelled as
function parameters of the embedded handlers, so a theorem quantifying over
those parameters holds for every behaviour of the external library.
-/

namespace Op

/-! ## Data model of the API service (src/operator/api/main.go) -/

/-- Embedding of a Kubernetes Job as consumed by the API service: only the
object metadata the code inspects (name and creation timestamp, the latter
as an integer timeline instant, since `Time.After` is exactly `<` on the
timeline). -/
structure KJob where
  name : String
  creationTimestamp : Int
  deriving Repr, DecidableEq

/-- Embedding of a Kubernetes Pod (the API service only forwards pods). -/
structure KPod where
  name : String
  deriving Repr, DecidableEq

/-- Result of `clientset.BatchV1().Jobs(ns).List`: the job items plus the
list continuation token (`jobs.Continue`). -/
structure JobsPage where
  items : List KJob
  continueTok : String
  deriving Repr, DecidableEq

/-- Embedding of `metav1.ListOptions` restricted to the fields relevant to
paging; the Go zero value is `{limit := 0, continueTok := ""}`. -/
structure ListOptions where
  limit : Int
  continueTok : String
  deriving Repr, DecidableEq

/-- Embedding of the `JobListResponse` envelope of src/operator/api/main.go
(lines 23-26): items plus optional continue token. -/
structure JobListResponse where
  items : List KJob
  continueTok : String
  deriving Repr, DecidableEq

/-- Embedding of the `JobDetailsResponse` envelope of
src/operator/api/main.go (lines 28-31). -/
structure JobDetailsResponse where
  job : KJob
  pods : List KPod
  deriving Repr, DecidableEq

/-- Outcome of an API handler: either a 200 JSON body (`respondJSON`) or a
plain-text error produced by `http.Error` with the given status. -/
inductive ApiResult (α : Type) where
  | ok (data : α)
  | error (status : Nat) (msg : String)
  deriving Repr, DecidableEq

/-- HTTP status of an `ApiResult` (`respondJSON` writes 200). -/
def ApiResult.status {α : Type} : ApiResult α → Nat
  | .ok _ => 200
  | .error s _ => s

/-! ## API service handlers -/

/-- Embedding of `getNamespace` (src/operator/api/main.go lines 97-103);
`defaultNamespace` models `os.Getenv("DEFAULT_NAMESPACE")`. -/
def getNamespace (nspace defaultNamespace : String) : String :=
  if nspace = "" then defaultNamespace else nspace

/-- Embedding of the sort comparator of `listJobs`
(src/operator/api/main.go line 132):
`jobs.Items[i].CreationTimestamp.After(jobs.Items[j].CreationTimestamp.Time)`. -/
def jobAfter (a b : KJob) : Bool :=
  b.creationTimestamp < a.creationTimestamp

/-- Insertion step of the model of `sort.Slice`: place `x` before the first
element `y` with `jobAfter x y`. -/
def insertJob (x : KJob) : List KJob → List KJob
  | [] => [x]
  | y :: ys => if jobAfter x y then x :: y :: ys else y :: insertJob x ys

/-- Model of `sort.Slice(jobs.Items, less)` with the comparator `jobAfter`
(src/operator/api/main.go lines 131-133): an insertion sort driven by the
source comparator.  Go's sort is unspecified on ties, so this is one
compliant outcome; every property proved below depends only on the
comparator. -/
def sortJobsDesc : List KJob → List KJob
  | [] => []
  | x :: xs => insertJob x (sortJobsDesc xs)

/-- Embedding of `listJobs` (src/operator/api/main.go lines 121-141).
`cluster` models `clientset.BatchV1().Jobs(namespace).List`; the handler
passes the zero `metav1.ListOptions{}` (line 123), returns 500 on a client
error and otherwise the sorted items plus the continuation token. -/
def listJobs (cluster : String → ListOptions → Except String JobsPage)
    (nspace : String) : ApiResult JobListResponse :=
  match cluster nspace { limit := 0, continueTok := "" } with
  | .error e => .error 500 e
  | .ok jobs => .ok { items := sortJobsDesc jobs.items, continueTok := jobs.continueTok }

/-- Query parameters of `GET /jobs` as read by the handler registered in
`main` (src/operator/api/main.go lines 46-55); absent parameters are `""`. -/
structure JobsQuery where
  nspace : String
  limit : String
  continueTok : String
  deriving Repr, DecidableEq

/-- Embedding of the `/jobs` route closure in `main`
(src/operator/api/main.go lines 47-55): method check, namespace fallback,
then `listJobs`.  Note the closure reads only the `namespace` query
parameter. -/
def jobsHandler (env : String)
    (cluster : String → ListOptions → Except String JobsPage)
    (q : JobsQuery) (method : String) : ApiResult JobListResponse :=
  if method ≠ "GET" then .error 405 "method not allowed"
  else listJobs cluster (getNamespace q.nspace env)

/-- Embedding of `jobDetails` (src/operator/api/main.go lines 144-167).
`getJob` models `Jobs(namespace).Get`, `listPods` models
`Pods(namespace).List` with the label selector built by `fmt.Sprintf`. -/
def jobDetails (getJob : String → String → Except String KJob)
    (listPods : String → String → Except String (List KPod))
    (nspace nm : String) : ApiResult JobDetailsResponse :=
  match getJob nspace nm with
  | .error e => .error 500 e
  | .ok job =>
    match listPods nspace ("job-name=" ++ nm) with
    | .error e => .error 500 e
    | .ok pods => .ok { job := job, pods := pods }

/-- Query parameters of `GET /jobs/details`. -/
structure DetailsQuery where
  nspace : String
  nm : String
  deriving Repr, DecidableEq

/-- Embedding of the `/jobs/details` route closure in `main`
(src/operator/api/main.go lines 58-70): method check, namespace fallback,
parameter check with 400, then `jobDetails`. -/
def detailsHandler (env : String)
    (getJob : String → String → Except String KJob)
    (listPods : String → String → Except String (List KPod))
    (q : DetailsQuery) (method : String) : ApiResult JobDetailsResponse :=
  if method ≠ "GET" then .error 405 "method not allowed"
  else if getNamespace q.nspace env = "" ∨ q.nm = "" then
    .error 400 "namespace and name parameters required"
  else jobDetails getJob listPods (getNamespace q.nspace env) q.nm

/-- Query parameters of `GET /pod/logs`. -/
structure LogsQuery where
  nspace : String
  pod : String
  deriving Repr, DecidableEq

/-- Embedding of `podLogs` (src/operator/api/main.go lines 170-196).
`getLogs` models `GetLogs(pod, ...).Stream` followed by `io.ReadAll`; both
failure points return 500 with the error text, so they are one `Except`. -/
def podLogs (env : String)
    (getLogs : String → String → Except String String)
    (q : LogsQuery) : ApiResult String :=
  if getNamespace q.nspace env = "" ∨ q.pod = "" then
    .error 400 "namespace and pod are required"
  else
    match getLogs (getNamespace q.nspace env) q.pod with
    | .error e => .error 500 e
    | .ok logData => .ok logData

/-- Embedding of the `/pod/logs` route closure in `main`
(src/operator/api/main.go lines 72-79): method check, then `podLogs`. -/
def podLogsHandler (env : String)
    (getLogs : String → String → Except String String)
    (q : LogsQuery) (method : String) : ApiResult String :=
  if method ≠ "GET" then .error 405 "method not allowed"
  else podLogs env getLogs q

/-- Embedding of the `/healthz` route closure in `main`
(src/operator/api/main.go lines 41-44): it writes 200 and body "ok"
unconditionally, with no method check. -/
def healthzHandler (_method : String) : Nat × String := (200, "ok")

/-! ## Dashboard service (src/unnamed/part_001) -/

/-- Embedding of the dashboard `getNamespace` (src/unnamed/part_001 lines
192-198), textually identical to the API-side function. -/
def dashGetNamespace (nspace defaultNamespace : String) : String :=
  if nspace = "" then defaultNamespace else nspace

/-- Embedding of the dashboard `Job` shape decoded from the backend list
response (src/unnamed/part_001 lines 19-31), restricted to the identifying
metadata. -/
structure DashJob where
  uid : String
  name : String
  deriving Repr, DecidableEq

/-- Embedding of the dashboard `JobListResponse` (src/unnamed/part_001
lines 33-35).  Its Go zero value is the empty item list. -/
structure DashJobList where
  items : List DashJob
  deriving Repr, DecidableEq

/-- What `http.Get` hands back on success: the response status code, the
bytes `io.ReadAll` produced, and the error `io.ReadAll` may have returned
alongside them. -/
structure BackendReply where
  status : Nat
  body : String
  readErr : Option String
  deriving Repr, DecidableEq

/-- Embedding of `callBackend` (src/unnamed/part_001 lines 180-190): a
transport error from `http.Get` is returned; otherwise the body bytes are
returned with a nil error — the response status code is never inspected and
the `io.ReadAll` error is discarded (`body, _ := io.ReadAll(...)`). -/
def callBackend (r : Except String BackendReply) : Except String String :=
  match r with
  | .error e => .error e
  | .ok reply => .ok reply.body

/-- Outcome of a dashboard handler: either a rendered template (HTTP 200,
`templates.ExecuteTemplate`) or a plain-text error from `http.Error`. -/
inductive PageResult (α : Type) where
  | page (tmpl : String) (data : α)
  | error (status : Nat) (msg : String)
  deriving Repr, DecidableEq

/-- Embedding of the `/frontend/jobs` closure (src/unnamed/part_001 lines
63-76).  `httpGet` models `http.Get` keyed by the request URL; `decode`
models `json.Unmarshal` into `JobListResponse`, returning `none` when the
body is not valid JSON for that shape — the code ignores the unmarshal
error, leaving the zero value, which `Option.getD` reproduces. -/
def frontendJobs (env backend : String)
    (httpGet : String → Except String BackendReply)
    (decode : String → Option DashJobList)
    (nsParam : String) : PageResult (List DashJob) :=
  let nspace := dashGetNamespace nsParam env
  let url := backend ++ "/jobs?namespace=" ++ nspace
  match callBackend (httpGet url) with
  | .error e => .error 500 e
  | .ok body => .page "job_list.html" ((decode body).getD ⟨[]⟩).items

/-! ## Dashboard job-details view model -/

/-- Nanoseconds per second, the value of Go's `time.Second`. -/
def nsPerSecond : Int := 1000000000

/-- Signed 64-bit wraparound (reduce modulo 2^64 into [-2^63, 2^63)),
modelling Go `int64` addition overflow inside `Duration.Round`. -/
def wrap64 (x : Int) : Int :=
  (x + 9223372036854775808) % 18446744073709551616 - 9223372036854775808

/-- Embedding of Go's `time.Duration.Round` (used at src/unnamed/part_001
line 107 as `d.Round(time.Second)`): round `d` to the nearest multiple of
`m`, half away from zero, saturating to the int64 extremes (±2^63) when
the away-from-zero candidate overflows.  `Int.tmod` is Go's `%` (truncated
toward zero); `lessThanHalf(x, y)` is the overflow-free comparison
`x + x < y`. -/
def durationRound (d m : Int) : Int :=
  if m ≤ 0 then d
  else if d < 0 then
    if (-(Int.tmod d m)) + (-(Int.tmod d m)) < m then d + (-(Int.tmod d m))
    else if wrap64 (d - m + (-(Int.tmod d m))) < d then wrap64 (d - m + (-(Int.tmod d m)))
    else -9223372036854775808
  else
    if Int.tmod d m + Int.tmod d m < m then d - Int.tmod d m
    else if wrap64 (d + m - Int.tmod d m) > d then wrap64 (d + m - Int.tmod d m)
    else 9223372036854775807

/-- Embedding of the dashboard `JobDetailsView` string fields
(src/unnamed/part_001 lines 42-48); the `Job` and `Pods` fields are passed
through unchanged and are omitted here. -/
structure JobDetailsView where
  start : String
  finish : String
  duration : String
  deriving Repr, DecidableEq

/-- Embedding of the view construction in the `/frontend/job/details`
closure (src/unnamed/part_001 lines 93-116).  `fmtRFC3339` models
`t.Format(time.RFC3339)` and `fmtDuration` models `Duration.String`;
`startTime`/`completionTime` are the optional `Job.Status` timestamps as
timeline instants in nanoseconds, so `Time.Sub` is integer subtraction for
all in-range times. -/
def buildJobDetailsView (fmtRFC3339 : Int → String) (fmtDuration : Int → String)
    (startTime completionTime : Option Int) : JobDetailsView :=
  let startStr := match startTime with
    | some t => fmtRFC3339 t
    | none => ""
  let finishStr := match completionTime with
    | some t => fmtRFC3339 t
    | none => ""
  let durationStr := match startTime, completionTime with
    | some s, some c => fmtDuration (durationRound (c - s) nsPerSecond)
    | _, _ => ""
  { start := startStr, finish := finishStr, duration := durationStr }

/-! ## URL path machinery for the `/pw/` artifact route

The `/pw/` handler (src/unnamed/part_001 lines 143-155) and the standard
library functions it relies on — `net/http.cleanPath` (applied by
`ServeMux` before routing, redirecting when the path is not canonical),
`strings.TrimPrefix`, `strings.SplitN`, `path.Clean`, `filepath.Join`,
`http.StripPrefix` and `http.FileServer`/`http.Dir.Open` — are embedded
over `List Char`, the character list of the decoded URL path.  All paths
the embedded functions clean are rooted (they start with '/'), matching
every call site. -/

/-- Split a character list at every '/' — the semantics of
`strings.Split(s, "/")`, which yields one (possibly empty) piece per
separator gap. -/
def splitSlash : List Char → List (List Char)
  | [] => [[]]
  | c :: cs =>
    if c = '/' then [] :: splitSlash cs
    else
      match splitSlash cs with
      | [] => [[c]]
      | s :: rest => (c :: s) :: rest

/-- Join segments with '/' separators, the inverse of `splitSlash` on
slash-free segments. -/
def joinSegs : List (List Char) → List Char
  | [] => []
  | [s] => s
  | s :: ss => s ++ '/' :: joinSegs ss

/-- A path segment that `path.Clean` keeps: non-empty and neither "." nor
"..". -/
def goodSeg (s : List Char) : Bool :=
  !(s == [] || s == ['.'] || s == ['.', '.'])

/-- Stack loop of `path.Clean` on a rooted path: empty and "." segments are
dropped, ".." pops the last kept segment (at the root it is a no-op), and
any other segment is pushed. -/
def cleanStack : List (List Char) → List (List Char) → List (List Char)
  | stack, [] => stack
  | stack, s :: rest =>
    if s = [] ∨ s = ['.'] then cleanStack stack rest
    else if s = ['.', '.'] then cleanStack stack.tail rest
    else cleanStack (s :: stack) rest

/-- Embedding of `path.Clean` on rooted paths: lexical cleaning of the
segments, producing a rooted path without empty, "." or ".." segments and
without a trailing slash (except the root itself). -/
def clean (p : List Char) : List Char :=
  '/' :: joinSegs (cleanStack [] (splitSlash p)).reverse

/-- Embedding of `net/http.cleanPath`: root an empty path, `path.Clean`,
and keep a trailing slash.  `ServeMux` redirects any request whose path
differs from its cleaned form, so handlers only ever observe fixed points
of this function. -/
def httpCleanPath (p : List Char) : List Char :=
  if p = [] then ['/']
  else
    if p.getLast? = some '/' ∧ clean (if p.head? = some '/' then p else '/' :: p) ≠ ['/'] then
      clean (if p.head? = some '/' then p else '/' :: p) ++ ['/']
    else
      clean (if p.head? = some '/' then p else '/' :: p)

/-- Embedding of `strings.SplitN(s, "/", 2)`: the part before the first
'/', and the remainder after it when a '/' occurs. -/
def splitN2 : List Char → List Char × Option (List Char)
  | [] => ([], none)
  | c :: cs =>
    if c = '/' then ([], some cs)
    else
      let r := splitN2 cs
      (c :: r.1, r.2)

/-- Embedding of `filepath.Join(a, b)` for two non-empty rooted-style
elements on a '/'-separator platform: concatenate with a separator and
`Clean`. -/
def filepathJoin (a b : List Char) : List Char := clean (a ++ '/' :: b)

/-- The segment "playwright-results". -/
def prSeg : List Char :=
  ['p', 'l', 'a', 'y', 'w', 'r', 'i', 'g', 'h', 't', '-', 'r', 'e', 's', 'u', 'l', 't', 's']

/-- The artifact root directory "/playwright-results". -/
def prBase : List Char := '/' :: prSeg

/-- The route pattern "/pw/". -/
def pwPre : List Char := ['/', 'p', 'w', '/']

/-- Outcome of a request routed through the dashboard mux toward the
`/pw/` handler: a canonicalization redirect issued by `ServeMux`, a
`http.NotFound` response, a dispatch to another route, or the file system
path opened by `http.Dir.Open` on behalf of the file server. -/
inductive PwOutcome where
  | redirect (loc : List Char)
  | notFound
  | notPw
  | serveFile (f : List Char)
  deriving Repr, DecidableEq

/-- Embedding of the `/pw/` route (src/unnamed/part_001 lines 143-155)
composed with the surrounding `net/http` machinery, as a function of the
decoded request path:
1. `ServeMux` redirects non-canonical paths (`httpCleanPath`);
2. paths outside the `/pw/` subtree go to other routes;
3. the handler strips "/pw/", applies `strings.SplitN(..., "/", 2)` and
   responds `http.NotFound` when no '/' follows the uid;
4. otherwise `filepath.Join("/playwright-results", uid)` is the file-server
   root, `http.StripPrefix` leaves the remainder, `http.FileServer` roots
   and cleans it, and `http.Dir.Open` opens
   `Join(root, Clean("/" + name))`, the path carried by `serveFile`. -/
def pwRoute (p : List Char) : PwOutcome :=
  if httpCleanPath p ≠ p then .redirect (httpCleanPath p)
  else if pwPre.isPrefixOf p then
    match splitN2 (p.drop 4) with
    | (_, none) => .notFound
    | (uid, some tl) =>
      .serveFile (filepathJoin (filepathJoin prBase uid)
        (clean ('/' :: clean (if tl.head? = some '/' then tl else '/' :: tl))))
  else .notPw

/-! ## Lemmas about the path machinery -/

theorem splitSlash_ne_nil (l : List Char) : splitSlash l ≠ [] := by
  induction l with
  | nil => simp [splitSlash]
  | cons c cs ih =>
    simp only [splitSlash]
    split
    · simp
    · split
      · simp
      · simp

theorem splitSlash_cons_slash (cs : List Char) :
    splitSlash ('/' :: cs) = [] :: splitSlash cs := by
  simp [splitSlash]

theorem splitSlash_no_slash (l : List Char) : ∀ s ∈ splitSlash l, '/' ∉ s := by
  induction l with
  | nil => simp [splitSlash]
  | cons c cs ih =>
    intro s hs
    simp only [splitSlash] at hs
    by_cases hc : c = '/'
    · rw [if_pos hc] at hs
      rcases List.mem_cons.mp hs with h | h
      · simp [h]
      · exact ih s h
    · rw [if_neg hc] at hs
      rcases hsplit : splitSlash cs with _ | ⟨t, rest⟩
      · exact absurd hsplit (splitSlash_ne_nil cs)
      · rw [hsplit] at hs
        rcases List.mem_cons.mp hs with h | h
        · subst h
          intro hmem
          rcases List.mem_cons.mp hmem with h1 | h1
          · exact hc h1.symm
          · exact ih t (by simp [hsplit]) h1
        · exact ih s (by simp [hsplit, List.mem_cons.mpr (Or.inr h)])

theorem splitSlash_single (s : List Char) (h : '/' ∉ s) : splitSlash s = [s] := by
  induction s with
  | nil => simp [splitSlash]
  | cons c cs ih =>
    have hc : c ≠ '/' := fun he => h (by simp [he])
    have hcs : '/' ∉ cs := fun he => h (by simp [he])
    simp only [splitSlash, if_neg hc, ih hcs]

theorem splitSlash_append (s : List Char) (h : '/' ∉ s) (r : List Char) :
    splitSlash (s ++ '/' :: r) = s :: splitSlash r := by
  induction s with
  | nil => simp [splitSlash_cons_slash]
  | cons c cs ih =>
    have hc : c ≠ '/' := fun he => h (by simp [he])
    have hcs : '/' ∉ cs := fun he => h (by simp [he])
    simp only [List.cons_append, splitSlash, if_neg hc, List.append_eq, ih hcs]

theorem joinSegs_cons2 (s t : List Char) (ss : List (List Char)) :
    joinSegs (s :: t :: ss) = s ++ '/' :: joinSegs (t :: ss) := rfl

theorem splitSlash_joinSegs (gs : List (List Char)) (hne : gs ≠ [])
    (h : ∀ s ∈ gs, '/' ∉ s) : splitSlash (joinSegs gs) = gs := by
  induction gs with
  | nil => exact absurd rfl hne
  | cons s ss ih =>
    cases ss with
    | nil => simpa [joinSegs] using splitSlash_single s (h s (by simp))
    | cons t ts =>
      rw [joinSegs_cons2, splitSlash_append s (h s (by simp)),
        ih (by simp) (fun u hu => h u (by simp [hu]))]

theorem cleanStack_good (l : List (List Char)) :
    ∀ stack : List (List Char),
      (∀ s ∈ stack, goodSeg s = true ∧ '/' ∉ s) →
      (∀ s ∈ l, '/' ∉ s) →
      ∀ s ∈ cleanStack stack l, goodSeg s = true ∧ '/' ∉ s := by
  induction l with
  | nil =>
    intro stack hst _ s hs
    exact hst s (by simpa [cleanStack] using hs)
  | cons s rest ih =>
    intro stack hst hl t ht
    simp only [cleanStack] at ht
    split at ht
    · exact ih stack hst (fun u hu => hl u (by simp [hu])) t ht
    · split at ht
      · exact ih stack.tail (fun u hu => hst u (List.mem_of_mem_tail hu))
          (fun u hu => hl u (by simp [hu])) t ht
      · refine ih (s :: stack) ?_ (fun u hu => hl u (by simp [hu])) t ht
        intro u hu
        rcases List.mem_cons.mp hu with h1 | h1
        · subst h1
          refine ⟨?_, hl u (by simp)⟩
          simp only [goodSeg, Bool.not_eq_true', Bool.or_eq_false_iff, beq_eq_false_iff_ne,
            ne_eq]
          refine ⟨⟨?_, ?_⟩, ?_⟩ <;> intro hx <;> simp_all
        · exact hst u h1

theorem cleanStack_no_dotdot (l : List (List Char)) :
    ∀ stack : List (List Char),
      (∀ s ∈ l, s ≠ ['.', '.']) →
      cleanStack stack l = (l.filter goodSeg).reverse ++ stack := by
  induction l with
  | nil => intro stack _; simp [cleanStack]
  | cons s rest ih =>
    intro stack h
    simp only [cleanStack]
    split
    · rename_i hcond
      have hg : ¬ goodSeg s = true := by
        rcases hcond with h1 | h1 <;> simp [goodSeg, h1]
      rw [ih stack (fun u hu => h u (by simp [hu])), List.filter_cons_of_neg hg]
    · split
      · rename_i hdot
        exact absurd hdot (h s (by simp))
      · rename_i hcond hdot
        have hg : goodSeg s = true := by
          simp only [goodSeg, Bool.not_eq_true', Bool.or_eq_false_iff, beq_eq_false_iff_ne,
            ne_eq]
          exact ⟨⟨fun hx => hcond (Or.inl hx), fun hx => hcond (Or.inr hx)⟩, hdot⟩
        rw [ih (s :: stack) (fun u hu => h u (by simp [hu])), List.filter_cons_of_pos hg,
          List.reverse_cons, List.append_assoc]
        simp

theorem clean_shape (p : List Char) :
    ∃ gs, clean p = '/' :: joinSegs gs ∧ ∀ s ∈ gs, goodSeg s = true ∧ '/' ∉ s := by
  refine ⟨(cleanStack [] (splitSlash p)).reverse, rfl, ?_⟩
  intro s hs
  exact cleanStack_good (splitSlash p) [] (by simp) (splitSlash_no_slash p) s
    (List.mem_reverse.mp hs)

theorem httpCleanPath_shape (p : List Char) :
    ∃ gs, (∀ s ∈ gs, goodSeg s = true ∧ '/' ∉ s) ∧
      (httpCleanPath p = '/' :: joinSegs gs ∨
        (httpCleanPath p = ('/' :: joinSegs gs) ++ ['/'] ∧ joinSegs gs ≠ [])) := by
  by_cases hp : p = []
  · exact ⟨[], by simp, Or.inl (by simp [httpCleanPath, hp, joinSegs])⟩
  · obtain ⟨gs, hcl, hmem⟩ := clean_shape (if p.head? = some '/' then p else '/' :: p)
    refine ⟨gs, hmem, ?_⟩
    by_cases hcond : p.getLast? = some '/' ∧
        clean (if p.head? = some '/' then p else '/' :: p) ≠ ['/']
    · right
      simp only [httpCleanPath, if_neg hp, if_pos hcond]
      refine ⟨by rw [hcl], ?_⟩
      intro hJ
      exact hcond.2 (by rw [hcl, hJ])
    · left
      simp only [httpCleanPath, if_neg hp, if_neg hcond]
      exact hcl

theorem splitN2_no_slash (s : List Char) (h : '/' ∉ s) : splitN2 s = (s, none) := by
  induction s with
  | nil => simp [splitN2]
  | cons c cs ih =>
    have hc : c ≠ '/' := fun he => h (by simp [he])
    have hcs : '/' ∉ cs := fun he => h (by simp [he])
    simp [splitN2, if_neg hc, ih hcs]

theorem splitN2_append (s : List Char) (h : '/' ∉ s) (t : List Char) :
    splitN2 (s ++ '/' :: t) = (s, some t) := by
  induction s with
  | nil => simp [splitN2]
  | cons c cs ih =>
    have hc : c ≠ '/' := fun he => h (by simp [he])
    have hcs : '/' ∉ cs := fun he => h (by simp [he])
    simp [splitN2, if_neg hc, ih hcs]

theorem append_slash_inj (s : List Char) : ∀ u x y : List Char, '/' ∉ s → '/' ∉ u →
    s ++ '/' :: x = u ++ '/' :: y → s = u ∧ x = y := by
  induction s with
  | nil =>
    intro u x y _ hu h
    cases u with
    | nil => simpa using h
    | cons b u2 =>
      simp only [List.nil_append, List.cons_append, List.cons.injEq] at h
      exact absurd (by simp [h.1.symm]) hu
  | cons a s2 ih =>
    intro u x y hs hu h
    cases u with
    | nil =>
      simp only [List.cons_append, List.nil_append, List.cons.injEq] at h
      exact absurd (by simp [h.1]) hs
    | cons b u2 =>
      simp only [List.cons_append, List.cons.injEq] at h
      obtain ⟨h1, h2⟩ := ih u2 x y (fun he => hs (by simp [he]))
        (fun he => hu (by simp [he])) h.2
      exact ⟨by rw [h.1, h1], h2⟩

theorem goodSeg_iff (s : List Char) :
    goodSeg s = true ↔ s ≠ [] ∧ s ≠ ['.'] ∧ s ≠ ['.', '.'] := by
  simp only [goodSeg, Bool.not_eq_true', Bool.or_eq_false_iff, beq_eq_false_iff_ne, ne_eq]
  tauto

/-- Core safety computation: joining a kept segment `uid` below the
artifact base and then joining any cleaned rooted remainder never leaves
`/playwright-results/uid`, and the resulting path has no ".." segment. -/
theorem clean_join_under (uid : List Char) (hg : goodSeg uid = true) (hns : '/' ∉ uid)
    (t : List Char) :
    filepathJoin prBase uid = prBase ++ '/' :: uid ∧
    ((filepathJoin (prBase ++ '/' :: uid) (clean ('/' :: t)) = prBase ++ '/' :: uid) ∨
      (prBase ++ '/' :: uid ++ ['/']) <+:
        filepathJoin (prBase ++ '/' :: uid) (clean ('/' :: t))) ∧
    (∀ s ∈ splitSlash (filepathJoin (prBase ++ '/' :: uid) (clean ('/' :: t))),
      s ≠ ['.', '.']) := by
  obtain ⟨hne, hdot1, hdot2⟩ := (goodSeg_iff uid).mp hg
  have hprSeg_ns : '/' ∉ prSeg := by decide
  have hprSeg_good : goodSeg prSeg = true := by decide
  -- the segments of prBase ++ '/' :: uid
  have hsplit_root : splitSlash (prBase ++ '/' :: uid) = [[], prSeg, uid] := by
    show splitSlash (('/' :: prSeg) ++ '/' :: uid) = [[], prSeg, uid]
    rw [List.cons_append, splitSlash_cons_slash, splitSlash_append prSeg hprSeg_ns,
      splitSlash_single uid hns]
  have hroot : filepathJoin prBase uid = prBase ++ '/' :: uid := by
    show clean (prBase ++ '/' :: uid) = prBase ++ '/' :: uid
    rw [clean, hsplit_root, cleanStack_no_dotdot _ _ (by simp [hdot2]; decide)]
    rw [List.filter_cons_of_neg (by decide), List.filter_cons_of_pos hprSeg_good,
      List.filter_cons_of_pos hg]
    simp [joinSegs, prBase]
  refine ⟨hroot, ?_⟩
  -- the cleaned remainder
  obtain ⟨gsI, hI, hImem⟩ := clean_shape ('/' :: t)
  -- the segments of the final join argument
  have harg : (prBase ++ '/' :: uid) ++ '/' :: clean ('/' :: t) =
      '/' :: (prSeg ++ '/' :: (uid ++ '/' :: ('/' :: joinSegs gsI))) := by
    rw [hI]
    simp [prBase]
  have hsplit_arg : splitSlash ((prBase ++ '/' :: uid) ++ '/' :: clean ('/' :: t)) =
      [] :: prSeg :: uid :: [] :: splitSlash (joinSegs gsI) := by
    rw [harg, splitSlash_cons_slash, splitSlash_append prSeg hprSeg_ns,
      splitSlash_append uid hns, splitSlash_cons_slash]
  have huid_dot : uid ≠ ['.', '.'] := hdot2
  cases hgsI : gsI with
  | nil =>
    -- served path is the root directory itself
    have hf : filepathJoin (prBase ++ '/' :: uid) (clean ('/' :: t)) =
        prBase ++ '/' :: uid := by
      show clean _ = _
      rw [clean, hsplit_arg, hgsI]
      show '/' :: joinSegs (cleanStack [] [[], prSeg, uid, [], []]).reverse = _
      rw [cleanStack_no_dotdot _ _ ?hdots0]
      case hdots0 =>
        intro s hs
        simp only [List.mem_cons, List.not_mem_nil, or_false] at hs
        rcases hs with h | h | h | h | h
        · simp [h]
        · subst h; decide
        · subst h; exact huid_dot
        · simp [h]
        · simp [h]
      rw [List.filter_cons_of_neg (by decide), List.filter_cons_of_pos hprSeg_good,
        List.filter_cons_of_pos hg, List.filter_cons_of_neg (by decide),
        List.filter_cons_of_neg (by decide)]
      simp [joinSegs, prBase]
    refine ⟨Or.inl hf, ?_⟩
    rw [hf, hsplit_root]
    intro s hs
    simp only [List.mem_cons, List.not_mem_nil, or_false] at hs
    rcases hs with h | h | h
    · simp [h]
    · subst h; decide
    · subst h; exact huid_dot
  | cons g gsI2 =>
    have hGmem : ∀ s ∈ gsI, goodSeg s = true ∧ '/' ∉ s := hImem
    have hGne : gsI ≠ [] := by rw [hgsI]; simp
    have hsplitJ : splitSlash (joinSegs gsI) = gsI :=
      splitSlash_joinSegs gsI hGne (fun s hs => (hGmem s hs).2)
    have hGdot : ∀ s ∈ gsI, s ≠ ['.', '.'] := by
      intro s hs
      exact ((goodSeg_iff s).mp (hGmem s hs).1).2.2
    have hstack : cleanStack [] ([] :: prSeg :: uid :: [] :: gsI) =
        (prSeg :: uid :: gsI).reverse := by
      rw [cleanStack_no_dotdot _ _ ?hdots]
      case hdots =>
        intro s hs
        simp only [List.mem_cons] at hs
        rcases hs with h | h | h | h | h
        · simp [h]
        · subst h; decide
        · subst h; exact huid_dot
        · simp [h]
        · exact hGdot s h
      rw [List.filter_cons_of_neg (by decide), List.filter_cons_of_pos hprSeg_good,
        List.filter_cons_of_pos hg, List.filter_cons_of_neg (by decide),
        List.filter_eq_self.mpr (fun s hs => (hGmem s hs).1)]
      simp
    have hf : filepathJoin (prBase ++ '/' :: uid) (clean ('/' :: t)) =
        '/' :: joinSegs (prSeg :: uid :: gsI) := by
      show clean _ = _
      rw [clean, hsplit_arg, hsplitJ, hstack, List.reverse_reverse]
    constructor
    · right
      rw [hf, hgsI, joinSegs_cons2, joinSegs_cons2]
      refine ⟨joinSegs (g :: gsI2), ?_⟩
      simp [prBase]
    · intro s hs
      rw [hf] at hs
      have hresplit : splitSlash ('/' :: joinSegs (prSeg :: uid :: gsI)) =
          [] :: prSeg :: uid :: gsI := by
        rw [splitSlash_cons_slash, splitSlash_joinSegs _ (by simp)]
        intro u hu
        simp only [List.mem_cons] at hu
        rcases hu with h | h | h
        · simp [h, hprSeg_ns]
        · subst h; exact hns
        · exact (hGmem u h).2
      rw [hresplit] at hs
      simp only [List.mem_cons] at hs
      rcases hs with h | h | h | h
      · simp [h]
      · subst h; decide
      · subst h; exact huid_dot
      · exact hGdot s h

/-- On any path that survives the mux canonicalization check and reaches
the `/pw/` handler with a component after the uid, the uid is a kept,
slash-free segment of the canonical path — in particular it is neither
"\.." nor "." nor empty. -/
theorem pw_uid_good (p uid tl : List Char)
    (hc : httpCleanPath p = p)
    (hpre : pwPre.isPrefixOf p = true)
    (hsp : splitN2 (p.drop 4) = (uid, some tl)) :
    goodSeg uid = true ∧ '/' ∉ uid := by
  obtain ⟨gs, hmem, hshape⟩ := httpCleanPath_shape p
  rw [hc] at hshape
  obtain ⟨rest, hrest⟩ := List.isPrefixOf_iff_prefix.mp hpre
  cases gs with
  | nil =>
    rcases hshape with h | ⟨h, hne⟩
    · rw [← hrest] at h
      have := congrArg List.length h
      simp [pwPre, joinSegs] at this
    · exact absurd rfl hne
  | cons s gs2 =>
    obtain ⟨hs_good, hs_ns⟩ := hmem s (by simp)
    cases gs2 with
    | nil =>
      rcases hshape with h | ⟨h, _⟩
      · -- p has no trailing slash and a single segment: "/pw/" cannot prefix it
        rw [← hrest] at h
        simp only [pwPre, joinSegs, List.cons_append, List.nil_append,
          List.cons.injEq] at h
        exact absurd (h.2 ▸ (by simp : '/' ∈ 'p' :: 'w' :: '/' :: rest)) hs_ns
      · -- p = "/" ++ s ++ "/": the only fit is p = "/pw/", where SplitN finds nothing
        rw [← hrest] at h
        simp only [pwPre, joinSegs, List.cons_append, List.nil_append, List.append_assoc,
          List.cons.injEq] at h
        obtain ⟨hseq, hrest_eq⟩ := append_slash_inj s ['p', 'w'] [] rest hs_ns
          (by decide) (by simpa using h.2.symm)
        rw [← hrest, ← hrest_eq] at hsp
        simp [pwPre, splitN2] at hsp
    | cons g2 gs3 =>
      obtain ⟨hg2_good, hg2_ns⟩ := hmem g2 (by simp)
      have hJ : joinSegs (s :: g2 :: gs3) = s ++ '/' :: joinSegs (g2 :: gs3) :=
        joinSegs_cons2 s g2 gs3
      rcases hshape with h | ⟨h, _⟩
      · rw [← hrest, hJ] at h
        simp only [pwPre, List.cons_append, List.nil_append, List.cons.injEq] at h
        obtain ⟨hseq, hJeq⟩ := append_slash_inj s ['p', 'w'] (joinSegs (g2 :: gs3)) rest
          hs_ns (by decide) (by simpa using h.2.symm)
        have hdrop : p.drop 4 = joinSegs (g2 :: gs3) := by
          rw [← hrest, ← hJeq]
          simp [pwPre]
        rw [hdrop] at hsp
        cases gs3 with
        | nil =>
          rw [show joinSegs [g2] = g2 from rfl, splitN2_no_slash g2 hg2_ns] at hsp
          simp at hsp
        | cons g3 gs4 =>
          rw [joinSegs_cons2, splitN2_append g2 hg2_ns] at hsp
          obtain ⟨h1, _⟩ := Prod.mk.injEq .. ▸ hsp
          exact h1 ▸ ⟨hg2_good, hg2_ns⟩
      · rw [← hrest, hJ] at h
        simp only [pwPre, List.cons_append, List.nil_append, List.append_assoc,
          List.cons.injEq] at h
        obtain ⟨hseq, hJeq⟩ := append_slash_inj s ['p', 'w']
          (joinSegs (g2 :: gs3) ++ ['/']) rest hs_ns (by decide)
          (by simpa using h.2.symm)
        have hdrop : p.drop 4 = joinSegs (g2 :: gs3) ++ ['/'] := by
          rw [← hrest, ← hJeq]
          simp [pwPre]
        rw [hdrop] at hsp
        cases gs3 with
        | nil =>
          rw [show joinSegs [g2] ++ ['/'] = g2 ++ '/' :: [] from rfl,
            splitN2_append g2 hg2_ns] at hsp
          obtain ⟨h1, _⟩ := Prod.mk.injEq .. ▸ hsp
          exact h1 ▸ ⟨hg2_good, hg2_ns⟩
        | cons g3 gs4 =>
          rw [joinSegs_cons2, show (g2 ++ '/' :: joinSegs (g3 :: gs4)) ++ ['/'] =
            g2 ++ '/' :: (joinSegs (g3 :: gs4) ++ ['/']) by simp,
            splitN2_append g2 hg2_ns] at hsp
          obtain ⟨h1, _⟩ := Prod.mk.injEq .. ▸ hsp
          exact h1 ▸ ⟨hg2_good, hg2_ns⟩

/-- A path of the exact form "/pw/" ++ uid with a kept, slash-free uid is
already canonical, so the mux does not redirect it. -/
theorem httpCleanPath_pw_uid (uid : List Char) (h1 : uid ≠ []) (h2 : goodSeg uid = true)
    (h3 : '/' ∉ uid) : httpCleanPath (pwPre ++ uid) = pwPre ++ uid := by
  have hpnil : pwPre ++ uid ≠ [] := by simp [pwPre]
  have hsplit : splitSlash (pwPre ++ uid) = [[], ['p', 'w'], uid] := by
    show splitSlash ('/' :: (['p', 'w'] ++ '/' :: uid)) = _
    rw [splitSlash_cons_slash, splitSlash_append _ (by decide), splitSlash_single uid h3]
  have hclean : clean (pwPre ++ uid) = pwPre ++ uid := by
    rw [clean, hsplit, cleanStack_no_dotdot _ _ ?hdots]
    case hdots =>
      intro s hs
      simp only [List.mem_cons, List.not_mem_nil, or_false] at hs
      rcases hs with h | h | h
      · simp [h]
      · subst h; decide
      · rw [h]; exact ((goodSeg_iff uid).mp h2).2.2
    rw [List.filter_cons_of_neg (by decide), List.filter_cons_of_pos (by decide),
      List.filter_cons_of_pos h2]
    simp [joinSegs, pwPre]
  have hhead : (pwPre ++ uid).head? = some '/' := rfl
  have hlast : ¬ ((pwPre ++ uid).getLast? = some '/') := by
    intro hcon
    rw [List.getLast?_append, List.getLast?_eq_getLast uid h1] at hcon
    simp only [Option.or_some, Option.some.injEq] at hcon
    exact h3 (hcon ▸ List.getLast_mem h1)
  unfold httpCleanPath
  rw [if_neg hpnil, if_neg (fun hcon => hlast hcon.1), if_pos hhead, hclean]

/-- Claim C6: every file the `/pw/` route serves is resolved below
`/playwright-results/<uid>` for a non-empty, slash-free uid that is neither
"." nor ".." — the served path extends `/playwright-results/<uid>` and
contains no ".." segment, for every request path including ones with ".."
in the uid or remainder (the mux canonicalization redirects those) — and a
path with no component after the uid yields the `http.NotFound` response. -/
theorem pw_route_safety :
    (∀ p f, pwRoute p = PwOutcome.serveFile f →
      ∃ uid, goodSeg uid = true ∧ '/' ∉ uid ∧
        (f = prBase ++ '/' :: uid ∨ (prBase ++ '/' :: uid ++ ['/']) <+: f) ∧
        ∀ s ∈ splitSlash f, s ≠ ['.', '.']) ∧
    (∀ uid, uid ≠ [] → goodSeg uid = true → '/' ∉ uid →
      pwRoute (pwPre ++ uid) = PwOutcome.notFound) := by
  constructor
  · intro p f h
    unfold pwRoute at h
    by_cases h1 : httpCleanPath p ≠ p
    · rw [if_pos h1] at h
      exact absurd h (by simp)
    · rw [if_neg h1] at h
      have hc : httpCleanPath p = p := not_not.mp h1
      by_cases h2 : pwPre.isPrefixOf p = true
      · rw [if_pos h2] at h
        rcases hsp : splitN2 (p.drop 4) with ⟨uid, otl⟩
        rw [hsp] at h
        cases otl with
        | none => simp at h
        | some tl =>
          obtain ⟨hg, hns⟩ := pw_uid_good p uid tl hc h2 hsp
          obtain ⟨hroot, hunder, hdots⟩ := clean_join_under uid hg hns
            (clean (if tl.head? = some '/' then tl else '/' :: tl))
          injection h with hf
          rw [hroot] at hf
          rw [hf] at hunder hdots
          exact ⟨uid, hg, hns, hunder, hdots⟩
      · rw [if_neg h2] at h
        exact absurd h (by simp)
  · intro uid h1 h2 h3
    have hfix := httpCleanPath_pw_uid uid h1 h2 h3
    unfold pwRoute
    rw [if_neg (by rw [hfix]; simp)]
    rw [if_pos (List.isPrefixOf_iff_prefix.mpr ⟨uid, rfl⟩)]
    rw [show (pwPre ++ uid).drop 4 = uid by simp [pwPre], splitN2_no_slash uid h3]

/-- Concrete instantiation of `pw_route_safety`: the request path
"/pw/abc/ix" is served from "/playwright-results/abc/ix", and the
uid-only path "/pw/abc" is a 404. -/
theorem pw_route_safety_witness :
    (∃ uid, goodSeg uid = true ∧ '/' ∉ uid ∧
      (prBase ++ ['/', 'a', 'b', 'c', '/', 'i', 'x'] = prBase ++ '/' :: uid ∨
        (prBase ++ '/' :: uid ++ ['/']) <+: prBase ++ ['/', 'a', 'b', 'c', '/', 'i', 'x']) ∧
      ∀ s ∈ splitSlash (prBase ++ ['/', 'a', 'b', 'c', '/', 'i', 'x']), s ≠ ['.', '.']) ∧
    pwRoute (pwPre ++ ['a', 'b', 'c']) = PwOutcome.notFound :=
  ⟨pw_route_safety.1 ['/', 'p', 'w', '/', 'a', 'b', 'c', '/', 'i', 'x']
      (prBase ++ ['/', 'a', 'b', 'c', '/', 'i', 'x']) (by decide),
    pw_route_safety.2 ['a', 'b', 'c'] (by decide) (by decide) (by decide)⟩

/-! ## Sort order of the jobs list -/

theorem chain_insertJob (x : KJob) (l : List KJob)
    (h : List.Chain' (fun a b => b.creationTimestamp ≤ a.creationTimestamp) l) :
    List.Chain' (fun a b => b.creationTimestamp ≤ a.creationTimestamp) (insertJob x l) := by
  induction l with
  | nil => simp [insertJob]
  | cons y ys ih =>
    by_cases hxy : jobAfter x y = true
    · have hlt : y.creationTimestamp < x.creationTimestamp := by
        simpa [jobAfter] using hxy
      simp only [insertJob, if_pos hxy]
      exact List.chain'_cons.mpr ⟨le_of_lt hlt, h⟩
    · have hle : x.creationTimestamp ≤ y.creationTimestamp := by
        simp only [jobAfter, decide_eq_true_eq, not_lt] at hxy
        exact hxy
      simp only [insertJob, if_neg hxy]
      cases ys with
      | nil =>
        simp only [insertJob]
        exact List.chain'_cons.mpr ⟨hle, List.chain'_singleton x⟩
      | cons z zs =>
        obtain ⟨hyz, htail⟩ := List.chain'_cons.mp h
        have ihz := ih htail
        by_cases hxz : jobAfter x z = true
        · simp only [insertJob, if_pos hxz] at ihz ⊢
          exact List.chain'_cons.mpr ⟨hle, ihz⟩
        · simp only [insertJob, if_neg hxz] at ihz ⊢
          exact List.chain'_cons.mpr ⟨hyz, ihz⟩

theorem chain_sortJobsDesc (l : List KJob) :
    List.Chain' (fun a b => b.creationTimestamp ≤ a.creationTimestamp) (sortJobsDesc l) := by
  induction l with
  | nil => simp [sortJobsDesc]
  | cons x xs ih =>
    simp only [sortJobsDesc]
    exact chain_insertJob x _ ih

/-! ## Claim C1 -/

/-- The strictly-descending adjacency order asserted by claim C1. -/
def strictlyDescending (l : List KJob) : Prop :=
  List.Chain' (fun a b => b.creationTimestamp < a.creationTimestamp) l

/-- Counterexample to claim C1 as stated: a namespace with two jobs created
at the same instant.  The comparator `After` is strict, so the sorted
response has two adjacent items with equal creation timestamps, which is
not strictly descending. -/
theorem listJobs_strict_desc_cex :
    listJobs (fun _ _ => .ok ⟨[⟨"a", 5⟩, ⟨"b", 5⟩], ""⟩) "ns"
      = .ok ⟨[⟨"b", 5⟩, ⟨"a", 5⟩], ""⟩ ∧
    ¬ strictlyDescending [⟨"b", 5⟩, ⟨"a", 5⟩] := by
  constructor
  · rfl
  · intro hcon
    obtain ⟨hlt, -⟩ := List.chain'_cons.mp hcon
    exact absurd hlt (by decide)

/-- Claim C1 (amended): every successful `GET /jobs` response is sorted by
non-increasing creation timestamp — adjacent items satisfy `≥`, and the
order is strict only where timestamps differ, since the comparator
`CreationTimestamp.After` is irreflexive on equal timestamps. -/
theorem listJobs_sorted_desc (cluster : String → ListOptions → Except String JobsPage)
    (nspace : String) (items : List KJob) (cont : String)
    (h : listJobs cluster nspace = .ok ⟨items, cont⟩) :
    List.Chain' (fun a b => b.creationTimestamp ≤ a.creationTimestamp) items := by
  unfold listJobs at h
  rcases hcl : cluster nspace { limit := 0, continueTok := "" } with e | page
  · rw [hcl] at h
    exact absurd h (by simp)
  · rw [hcl] at h
    simp only [ApiResult.ok.injEq, JobListResponse.mk.injEq] at h
    rw [← h.1]
    exact chain_sortJobsDesc page.items

/-- Concrete instantiation of `listJobs_sorted_desc` on a two-job cluster
reply with equal timestamps. -/
theorem listJobs_sorted_desc_witness :
    List.Chain' (fun a b => b.creationTimestamp ≤ a.creationTimestamp)
      [KJob.mk "b" 5, KJob.mk "a" 5] :=
  listJobs_sorted_desc (fun _ _ => .ok ⟨[⟨"a", 5⟩, ⟨"b", 5⟩], ""⟩) "ns"
    [⟨"b", 5⟩, ⟨"a", 5⟩] "" (by rfl)

/-! ## Claim C2 -/

/-- Claim C2 is false of the code: the `/jobs` handler never reads the
`limit` and `continue` query parameters — it always passes the zero
`metav1.ListOptions{}` — so the response is independent of both, and a
cluster that would honor `limit = 1` still has its full unpaged list
returned when the request carries `limit=1&continue=tok`. -/
theorem jobs_pagination_ignored :
    (∀ cluster : String → ListOptions → Except String JobsPage,
      ∀ l1 c1 l2 c2 m, jobsHandler "" cluster ⟨"ns", l1, c1⟩ m
        = jobsHandler "" cluster ⟨"ns", l2, c2⟩ m) ∧
    jobsHandler ""
        (fun _ opts => .ok (if opts.limit = 1 then ⟨[⟨"j1", 2⟩], "next"⟩
          else ⟨[⟨"j1", 2⟩, ⟨"j2", 1⟩], ""⟩))
        ⟨"ns", "1", "tok"⟩ "GET"
      = .ok ⟨[⟨"j1", 2⟩, ⟨"j2", 1⟩], ""⟩ := by
  exact ⟨fun _ _ _ _ _ _ => rfl, by rfl⟩

/-! ## Claim C3 -/

/-- Claim C3: a GET request to `/jobs/details` or `/pod/logs` whose
required parameters are missing — the namespace is empty after the
`DEFAULT_NAMESPACE` fallback, or the name (resp. pod) parameter is empty —
receives status 400 with the handler's message, and the response is the
same for every Kubernetes client behaviour, i.e. no client call can
influence it. -/
theorem missing_params_400 (env nsp nm pd : String)
    (hdetails : getNamespace nsp env = "" ∨ nm = "")
    (hlogs : getNamespace nsp env = "" ∨ pd = "") :
    (∀ getJob listPods, detailsHandler env getJob listPods ⟨nsp, nm⟩ "GET"
        = .error 400 "namespace and name parameters required") ∧
    (∀ getLogs, podLogsHandler env getLogs ⟨nsp, pd⟩ "GET"
        = .error 400 "namespace and pod are required") := by
  constructor
  · intro getJob listPods
    unfold detailsHandler
    rw [if_neg (by simp), if_pos hdetails]
  · intro getLogs
    unfold podLogsHandler podLogs
    rw [if_neg (by simp), if_pos hlogs]

/-- Concrete instantiation of `missing_params_400` with all parameters and
the environment empty. -/
theorem missing_params_400_witness :
    detailsHandler "" (fun _ _ => .error "unused") (fun _ _ => .error "unused")
        ⟨"", ""⟩ "GET" = .error 400 "namespace and name parameters required" ∧
    podLogsHandler "" (fun _ _ => .error "unused") ⟨"", ""⟩ "GET"
        = .error 400 "namespace and pod are required" :=
  ⟨(missing_params_400 "" "" "" "" (Or.inl (by decide)) (Or.inl (by decide))).1 _ _,
    (missing_params_400 "" "" "" "" (Or.inl (by decide)) (Or.inl (by decide))).2 _⟩

/-! ## Claim C4 -/

/-- Counterexample to claim C4 as stated: `/healthz` is one of the listed
GET-only routes, but its handler has no method check — a POST receives
200 "ok", not 405. -/
theorem healthz_non_get_cex :
    healthzHandler "POST" = (200, "ok") ∧ (healthzHandler "POST").1 ≠ 405 :=
  ⟨rfl, by decide⟩

/-- Claim C4 (amended): a non-GET request to `/jobs`, `/jobs/details` or
`/pod/logs` receives status 405; `/healthz` answers 200 "ok" to every
method, including non-GET ones. -/
theorem non_get_yields_405 (m : String) (hm : m ≠ "GET") (env : String) :
    (∀ cluster q, (jobsHandler env cluster q m).status = 405) ∧
    (∀ getJob listPods q, (detailsHandler env getJob listPods q m).status = 405) ∧
    (∀ getLogs q, (podLogsHandler env getLogs q m).status = 405) ∧
    (∀ m2, healthzHandler m2 = (200, "ok")) := by
  refine ⟨?_, ?_, ?_, fun _ => rfl⟩
  · intro cluster q
    unfold jobsHandler
    rw [if_pos hm]
    rfl
  · intro getJob listPods q
    unfold detailsHandler
    rw [if_pos hm]
    rfl
  · intro getLogs q
    unfold podLogsHandler
    rw [if_pos hm]
    rfl

/-- Concrete instantiation of `non_get_yields_405` at method "POST". -/
theorem non_get_yields_405_witness :
    (jobsHandler "" (fun _ _ => .error "e") ⟨"", "", ""⟩ "POST").status = 405 :=
  (non_get_yields_405 "POST" (by decide) "").1 _ _

/-! ## Claim C9 -/

/-- Claim C9: every request to `/healthz` — in particular every GET —
receives status 200 with body exactly "ok". -/
theorem healthz_ok (m : String) : healthzHandler m = (200, "ok") := rfl

/-! ## Claim C5 -/

/-- The error-response shape asserted by claim C5: a plain-text error with
status 400, 405 or 500. -/
def isPlainTextError (r : PageResult (List DashJob)) : Prop :=
  ∃ s msg, r = PageResult.error s msg ∧ (s = 400 ∨ s = 405 ∨ s = 500)

/-- Counterexample to claim C5 as stated: the backend answers a dashboard
jobs request with status 500 and body "boom".  `http.Get` itself succeeds,
so `callBackend` returns a nil error, the JSON decode failure is ignored,
and the dashboard renders the job list page over the zero value with
status 200 instead of surfacing an error response. -/
theorem backend_error_not_surfaced_cex :
    frontendJobs "" "http://localhost:8080" (fun _ => .ok ⟨500, "boom", none⟩)
        (fun _ => none) "ns" = PageResult.page "job_list.html" [] ∧
    ¬ isPlainTextError (frontendJobs "" "http://localhost:8080"
        (fun _ => .ok ⟨500, "boom", none⟩) (fun _ => none) "ns") := by
  refine ⟨rfl, ?_⟩
  rintro ⟨s, msg, heq, -⟩
  exact PageResult.noConfusion
    ((rfl : frontendJobs "" "http://localhost:8080" (fun _ => .ok ⟨500, "boom", none⟩)
        (fun _ => none) "ns" = PageResult.page "job_list.html" []).symm.trans heq)

/-- Claim C5 (amended): missing parameters, wrong methods and upstream
Kubernetes errors on the API service, and transport errors from the
dashboard to the backend, are surfaced as plain-text responses with status
400, 405 and 500 respectively; but a backend reply carrying an error
status code is not surfaced by the dashboard — `callBackend` ignores the
status, and the handler renders the template over whatever decodes. -/
theorem error_surfacing (env backend nsParam e : String)
    (dec : String → Option DashJobList) (m : String) (hm : m ≠ "GET") :
    frontendJobs env backend (fun _ => .error e) dec nsParam = PageResult.error 500 e ∧
    (∀ s b re, frontendJobs env backend (fun _ => .ok ⟨s, b, re⟩) dec nsParam
        = PageResult.page "job_list.html" ((dec b).getD ⟨[]⟩).items) ∧
    (∀ cluster q, (jobsHandler env cluster q m).status = 405) ∧
    (∀ cluster nsp e2, cluster nsp ({ limit := 0, continueTok := "" } : ListOptions)
        = .error e2 → listJobs cluster nsp = .error 500 e2) ∧
    (∀ getJob listPods nsp nm, getNamespace nsp env = "" ∨ nm = "" →
      detailsHandler env getJob listPods ⟨nsp, nm⟩ "GET"
        = .error 400 "namespace and name parameters required") := by
  refine ⟨rfl, fun _ _ _ => rfl, ?_, ?_, ?_⟩
  · intro cluster q
    unfold jobsHandler
    rw [if_pos hm]
    rfl
  · intro cluster nsp e2 hcl
    unfold listJobs
    rw [hcl]
  · intro getJob listPods nsp nm hmiss
    unfold detailsHandler
    rw [if_neg (by simp), if_pos hmiss]

/-- Concrete instantiation of `error_surfacing`: a transport error "boom"
is surfaced as a plain-text 500. -/
theorem error_surfacing_witness :
    frontendJobs "" "" (fun _ => .error "boom") (fun _ => none) ""
      = PageResult.error 500 "boom" :=
  (error_surfacing "" "" "" "boom" (fun _ => none) "POST" (by decide)).1

/-! ## Claim C7 -/

/-- Claim C7: on both services a present, non-empty namespace parameter is
used unchanged and an omitted or empty one falls back to the
`DEFAULT_NAMESPACE` environment value; the `/jobs` handler passes exactly
`getNamespace` of the parameter to the cluster call, and the dashboard
jobs handler builds the backend URL from exactly `dashGetNamespace` of the
parameter. -/
theorem namespace_fallback (nsp env : String) :
    getNamespace nsp env = (if nsp = "" then env else nsp) ∧
    dashGetNamespace nsp env = getNamespace nsp env ∧
    (∀ cluster l c, jobsHandler env cluster ⟨nsp, l, c⟩ "GET"
        = listJobs cluster (getNamespace nsp env)) ∧
    (∀ backend httpGet dec, frontendJobs env backend httpGet dec nsp =
      match callBackend (httpGet (backend ++ "/jobs?namespace="
          ++ dashGetNamespace nsp env)) with
      | .error e => PageResult.error 500 e
      | .ok body => PageResult.page "job_list.html" ((dec body).getD ⟨[]⟩).items) := by
  refine ⟨rfl, rfl, ?_, fun _ _ _ => rfl⟩
  intro cluster l c
  unfold jobsHandler
  rw [if_neg (by simp)]

/-! ## Claim C10 -/

/-- Claim C10: `callBackend` returns a nil error whenever the outbound
request succeeds, whatever the backend's status code and whatever error
`io.ReadAll` reported; therefore a dashboard jobs request whose backend
reply does not decode as JSON renders the job list template over the
zero-valued list with status 200. -/
theorem callBackend_lenient (s : Nat) (b : String) (re : Option String)
    (dec : String → Option DashJobList) (env backend nsParam : String)
    (hdec : dec b = none) :
    callBackend (.ok ⟨s, b, re⟩) = .ok b ∧
    frontendJobs env backend (fun _ => .ok ⟨s, b, re⟩) dec nsParam
      = PageResult.page "job_list.html" [] := by
  refine ⟨rfl, ?_⟩
  show PageResult.page "job_list.html" ((dec b).getD ⟨[]⟩).items
      = PageResult.page "job_list.html" []
  rw [hdec]
  rfl

/-- Concrete instantiation of `callBackend_lenient`: backend status 500
with a non-JSON body still yields a rendered page over the empty list. -/
theorem callBackend_lenient_witness :
    callBackend (.ok ⟨500, "not json", none⟩) = .ok "not json" ∧
    frontendJobs "" "" (fun _ => .ok ⟨500, "not json", none⟩) (fun _ => none) ""
      = PageResult.page "job_list.html" [] :=
  callBackend_lenient 500 "not json" none (fun _ => none) "" "" "" rfl

/-! ## Claim C8 -/

/-- Rounding quality of `durationRound` at one second: for every in-range
duration the result is a whole number of seconds within half a second of
the input. -/
theorem durationRound_near (d : Int) (hd : d.natAbs < 4611686018427387904) :
    durationRound d nsPerSecond % nsPerSecond = 0 ∧
    2 * (d - durationRound d nsPerSecond).natAbs ≤ 1000000000 := by
  simp only [nsPerSecond]
  cases d with
  | ofNat n =>
    have hofn : Int.ofNat n = (n : Int) := rfl
    have homod : Int.ofNat (n % 1000000000) = ((n % 1000000000 : Nat) : Int) := rfl
    have hn : n < 4611686018427387904 := by simpa using hd
    have hneg : ¬ ((Int.ofNat n) < 0) := by omega
    have hr : Int.tmod (Int.ofNat n) 1000000000 = Int.ofNat (n % 1000000000) := rfl
    unfold durationRound
    rw [if_neg (by omega : ¬ ((1000000000 : Int) ≤ 0)), if_neg hneg, hr]
    by_cases hhalf : Int.ofNat (n % 1000000000) + Int.ofNat (n % 1000000000)
        < (1000000000 : Int)
    · rw [if_pos hhalf]
      omega
    · rw [if_neg hhalf]
      have hw : wrap64 (Int.ofNat n + 1000000000 - Int.ofNat (n % 1000000000))
          = Int.ofNat n + 1000000000 - Int.ofNat (n % 1000000000) := by
        unfold wrap64
        rw [Int.emod_eq_of_lt (by omega) (by omega)]
        omega
      rw [hw, if_pos (by omega)]
      omega
  | negSucc n =>
    have hns : Int.negSucc n = -((n : Int) + 1) := rfl
    have homod : Int.ofNat ((n + 1) % 1000000000)
        = (((n + 1) % 1000000000 : Nat) : Int) := rfl
    have hn : n + 1 ≤ 4611686018427387904 := by
      have h2 := hd
      simp only [Int.natAbs_negSucc] at h2
      omega
    have hneg : (Int.negSucc n) < 0 := by omega
    have hr : Int.tmod (Int.negSucc n) 1000000000
        = -(Int.ofNat ((n + 1) % 1000000000)) := rfl
    unfold durationRound
    rw [if_neg (by omega : ¬ ((1000000000 : Int) ≤ 0)), if_pos hneg, hr]
    by_cases hhalf : - -(Int.ofNat ((n + 1) % 1000000000))
        + - -(Int.ofNat ((n + 1) % 1000000000)) < (1000000000 : Int)
    · rw [if_pos hhalf]
      omega
    · rw [if_neg hhalf]
      have hw : wrap64 (Int.negSucc n - 1000000000 + - -(Int.ofNat ((n + 1) % 1000000000)))
          = Int.negSucc n - 1000000000 + Int.ofNat ((n + 1) % 1000000000) := by
        unfold wrap64
        rw [Int.emod_eq_of_lt (by omega) (by omega)]
        omega
      rw [hw, if_pos (by omega)]
      omega

/-- Claim C8: in the dashboard job-details view, `Start` is the RFC3339
rendering of `StartTime` exactly when it is present (otherwise empty),
`Finish` likewise for `CompletionTime`, and `Duration` is the rendering of
the difference rounded to the nearest whole second exactly when both are
present (otherwise empty); the rounded value is a multiple of a second at
distance at most half a second from the difference, for all durations in
the int64-safe range. -/
theorem jobDetailsView_formatting (fmtT fmtD : Int → String) (st ct : Option Int)
    (hrange : ∀ a b, st = some a → ct = some b →
      (b - a).natAbs < 4611686018427387904) :
    (∀ a, st = some a → (buildJobDetailsView fmtT fmtD st ct).start = fmtT a) ∧
    (st = none → (buildJobDetailsView fmtT fmtD st ct).start = "") ∧
    (∀ b, ct = some b → (buildJobDetailsView fmtT fmtD st ct).finish = fmtT b) ∧
    (ct = none → (buildJobDetailsView fmtT fmtD st ct).finish = "") ∧
    (∀ a b, st = some a → ct = some b →
      (buildJobDetailsView fmtT fmtD st ct).duration
          = fmtD (durationRound (b - a) nsPerSecond) ∧
      durationRound (b - a) nsPerSecond % nsPerSecond = 0 ∧
      2 * (b - a - durationRound (b - a) nsPerSecond).natAbs ≤ 1000000000) ∧
    ((st = none ∨ ct = none) → (buildJobDetailsView fmtT fmtD st ct).duration = "") := by
  refine ⟨?_, ?_, ?_, ?_, ?_, ?_⟩
  · intro a ha
    subst ha
    rfl
  · intro h
    subst h
    rfl
  · intro b hb
    subst hb
    rfl
  · intro h
    subst h
    cases st with
    | none => rfl
    | some a => rfl
  · intro a b ha hb
    subst ha
    subst hb
    exact ⟨rfl, (durationRound_near (b - a) (hrange a b rfl rfl)).1,
      (durationRound_near (b - a) (hrange a b rfl rfl)).2⟩
  · rintro (h | h)
    · subst h
      rfl
    · subst h
      cases st with
      | none => rfl
      | some a => rfl

/-- Concrete instantiation of `jobDetailsView_formatting`: a job that
started at instant 0 and completed at 90.4 seconds has its view duration
rounded to a whole 90 seconds. -/
theorem jobDetailsView_formatting_witness :
    (buildJobDetailsView (fun _ => "t") (fun _ => "d")
        (some 0) (some 90400000000)).duration
      = (fun _ : Int => "d") (durationRound ((90400000000 : Int) - 0) nsPerSecond) ∧
    durationRound ((90400000000 : Int) - 0) nsPerSecond % nsPerSecond = 0 ∧
    2 * ((90400000000 : Int) - 0
        - durationRound ((90400000000 : Int) - 0) nsPerSecond).natAbs ≤ 1000000000 :=
  (jobDetailsView_formatting (fun _ => "t") (fun _ => "d") (some 0) (some 90400000000)
      (by
        intro a b ha hb
        injection ha with h1
        injection hb with h2
        rw [← h1, ← h2]
        decide)).2.2.2.2.1 0 90400000000 rfl rfl

end Op
